import Mathlib

/-!
Shallow embedding of src/S10/reactiontimelab.py.

Data model:
* A Python float value appearing as a score is modelled by `Score`: either the
  sentinel float inf, or a finite value modelled as a rational.
* A JSON value (the result of json.load) is modelled by `JVal`.
* The persistent storage file is modelled by `FS`: `file` is the current
  content (`none` = file absent, `Raw.garbage` = text that json.load rejects,
  `Raw.val v` = text that parses to `v`), `writable` models whether writes to
  the file succeed (an environment assumption: when `writable` is false every
  attempted write raises inside the `try` that wraps it, exactly the broad
  `except` blocks of the source), and `writes` counts attempted writes so that
  the theorems can speak about whether an operation touched storage.
  Python json.dump serializes float inf as the token Infinity and json.load
  parses it back to float inf (allow_nan defaults to True on both sides), so a
  value written by this program always reads back identically; this is why a
  successful write is modelled as storing the `JVal` itself.
-/

inductive Score where
  | inf : Score
  | fin : ℚ → Score
deriving DecidableEq

/-- Python comparison a < b on scores (float inf semantics). -/
def Score.lt : Score → Score → Bool
  | .fin a, .fin b => decide (a < b)
  | .fin _, .inf => true
  | .inf, _ => false

/-- Python comparison a <= b on scores (float inf semantics). -/
def Score.le : Score → Score → Bool
  | .fin a, .fin b => decide (a ≤ b)
  | .inf, .fin _ => false
  | _, .inf => true

/-- The smaller of two scores (inf being the greatest element). -/
def minScore (a b : Score) : Score := if Score.lt a b then a else b

inductive JVal where
  | null : JVal
  | bool : Bool → JVal
  | num : Score → JVal
  | str : String → JVal
  | arr : List JVal → JVal
  | obj : List (String × JVal) → JVal

/-- Lookup of a key in a Python dict (modelled as an association list in
insertion order; json.load never produces duplicate keys). -/
def lookupKey : List (String × JVal) → String → Option JVal
  | [], _ => none
  | kv :: t, k => if kv.1 == k then some kv.2 else lookupKey t k

/-- Python dict.get(k, d). -/
def getD (l : List (String × JVal)) (k : String) (d : JVal) : JVal :=
  (lookupKey l k).getD d

/-- Python membership test k in dict. -/
def hasKey (l : List (String × JVal)) (k : String) : Bool :=
  (lookupKey l k).isSome

/-- Python dict assignment d[k] = v: replaces the value in place if the key is
present, appends at the end otherwise (insertion-order semantics). -/
def setKey : List (String × JVal) → String → JVal → List (String × JVal)
  | [], k, v => [(k, v)]
  | kv :: t, k, v => if kv.1 == k then (k, v) :: t else kv :: setKey t k v

def JVal.isDict : JVal → Bool
  | .obj _ => true
  | _ => false

def JVal.isNum : JVal → Bool
  | .num _ => true
  | _ => false

/-- Python equality of the string literal with a JSON value (used by list
membership: a non-str value is never equal to a str). -/
def isPlayersStr : JVal → Bool
  | .str s => s == "players"
  | _ => false

def matchesAt : List Char → List Char → Bool
  | [], _ => true
  | _ :: _, [] => false
  | a :: as, b :: bs => a == b && matchesAt as bs

/-- Python substring membership test (needle in haystack for str). -/
def containsSeq (p : List Char) : List Char → Bool
  | [] => matchesAt p []
  | c :: t => matchesAt p (c :: t) || containsSeq p t

inductive Raw where
  | garbage : Raw
  | val : JVal → Raw

structure FS where
  file : Option Raw
  writable : Bool
  writes : Nat

/-- One attempted write of a whole document to the storage file: the attempt is
counted, and the content changes only when writing succeeds. Every write in the
source sits inside a try/except that swallows the failure. -/
def writeFile (v : JVal) (fs : FS) : FS :=
  { fs with
    writes := fs.writes + 1
    file := if fs.writable then some (Raw.val v) else fs.file }

/-- save_scores(data): json.dump wrapped in try/except, failures printed and
swallowed. -/
def save_scores (data : JVal) (fs : FS) : FS := writeFile data fs

/-- The dict literal for a fresh empty scoreboard. -/
def freshDb : JVal := .obj [("players", .obj [])]

/-- Python expression "players" in data. Raises TypeError (modelled as
.error) when data is a parsed number, boolean or null. -/
def memPlayers : JVal → Except String Bool
  | .obj l => .ok (hasKey l "players")
  | .arr l => .ok (l.any isPlayersStr)
  | .str s => .ok (containsSeq "players".toList s.toList)
  | _ => .error "TypeError"

/-- Python expression data["players"]. For a str or arr the subscript raises
TypeError (string and list indices must be integers). -/
def getItemPlayers : JVal → Except String JVal
  | .obj l =>
      match lookupKey l "players" with
      | some v => .ok v
      | none => .error "KeyError"
  | _ => .error "TypeError"

/-- The body of load_scores after the file exists: open/json.load and the
structural checks. A missing or unparseable file raises IOError or
JSONDecodeError, both caught: the file is reset and a fresh scoreboard is
returned. A parsed document goes through "players" not in data (which can
itself raise, uncaught, for non-container top-level values) and the
isinstance check; structurally invalid parsed documents yield a fresh
scoreboard without touching the file. -/
def readScores (fs : FS) : Except String (JVal × FS) :=
  match fs.file with
  | none => .ok (freshDb, writeFile freshDb fs)
  | some .garbage => .ok (freshDb, writeFile freshDb fs)
  | some (.val data) =>
      match memPlayers data with
      | .error e => .error e
      | .ok false => .ok (freshDb, fs)
      | .ok true =>
          match getItemPlayers data with
          | .error e => .error e
          | .ok v => if v.isDict then .ok (data, fs) else .ok (freshDb, fs)

/-- load_scores(): if the file does not exist it is first created holding a
fresh empty scoreboard (a failing creation is caught: the fresh scoreboard is
returned without reading); then the file is read as in readScores. -/
def load_scores (fs : FS) : Except String (JVal × FS) :=
  match fs.file with
  | none =>
      let fs1 := writeFile freshDb fs
      if fs.writable then readScores fs1 else .ok (freshDb, fs1)
  | some _ => readScores fs

/-- The players dict of a loaded document (db["players"]); junk default [] for
documents load_scores never returns successfully. -/
def playersOf : JVal → List (String × JVal)
  | .obj l =>
      match lookupKey l "players" with
      | some (.obj p) => p
      | _ => []
  | _ => []

/-- Python assignment db["players"] = the updated players dict (the source
mutates the nested dict in place; every other top-level key of db is kept). -/
def setPlayers (db : JVal) (p : List (String × JVal)) : JVal :=
  match db with
  | .obj l => .obj (setKey l "players" (.obj p))
  | v => v

/-- register_or_get_user(name). -/
def register_or_get_user (name : String) (fs : FS) : Except String (JVal × FS) :=
  match load_scores fs with
  | .error e => .error e
  | .ok (db, fs1) =>
      let players := playersOf db
      if hasKey players name then
        .ok (getD players name (.num .inf), fs1)
      else
        let db2 := setPlayers db (setKey players name (.num .inf))
        .ok (.num .inf, save_scores db2 fs1)

/-- Python comparison new_score < old where old came out of the players dict.
A Python bool compares numerically (True = 1, False = 0); comparing a float
with any other JSON value raises TypeError. -/
def pyLtScore (a : Score) : JVal → Except String Bool
  | .num b => .ok (Score.lt a b)
  | .bool b => .ok (Score.lt a (.fin (if b then 1 else 0)))
  | _ => .error "TypeError"

/-- update_score(name, new_score): load, compare inside try (a comparison
failure is printed and falls through to return False), write and persist when
strictly better. A failure raised by load_scores itself propagates. -/
def update_score (name : String) (new_score : Score) (fs : FS) :
    Except String (Bool × FS) :=
  match load_scores fs with
  | .error e => .error e
  | .ok (db, fs1) =>
      let old := getD (playersOf db) name (.num .inf)
      match pyLtScore new_score old with
      | .error _ => .ok (false, fs1)
      | .ok true =>
          let db2 := setPlayers db (setKey (playersOf db) name (.num new_score))
          .ok (true, save_scores db2 fs1)
      | .ok false => .ok (false, fs1)

/-- Display value of a stored score: inf is replaced by 9999.0, a bool sorts
by its numeric value. Python raises TypeError only when sorted() actually
compares a non-numeric entry with a number; this model raises on any
non-numeric entry, which agrees with the source on every well-formed
scoreboard (all claims are stated on those). -/
def dispOf : JVal → Except String ℚ
  | .num .inf => .ok 9999
  | .num (.fin q) => .ok q
  | .bool b => .ok (if b then 1 else 0)
  | _ => .error "TypeError"

/-- Total display value of a numeric (or bool) stored score; junk 0 on other
values, which only dispOf sees first. -/
def dispQ : JVal → ℚ
  | .num .inf => 9999
  | .num (.fin q) => q
  | .bool b => if b then 1 else 0
  | _ => 0

/-- The list comprehension of get_top5: one display entry per player, in the
insertion order of the players dict; the first non-sortable value raises. -/
def normalizeP : List (String × JVal) → Except String (List (String × ℚ))
  | [] => .ok []
  | kv :: t =>
      match dispOf kv.2, normalizeP t with
      | .ok q, .ok rest => .ok ((kv.1, q) :: rest)
      | .error e, _ => .error e
      | _, .error e => .error e

/-- The while loop of get_top5, padding with placeholders (f"user{len+1}", 0.0)
until the list has 5 entries. Each pass grows the list by one, so 5 units of
fuel always reach the exit condition; the fuel makes the definition
structurally recursive. -/
def padTopAux : Nat → List (String × ℚ) → List (String × ℚ)
  | 0, l => l
  | fuel + 1, l =>
      if l.length < 5 then
        padTopAux fuel (l ++ [("user" ++ toString (l.length + 1), (0 : ℚ))])
      else l

def padTop (l : List (String × ℚ)) : List (String × ℚ) := padTopAux 5 l

/-- Ordering key of sorted(normalized, key=lambda x: x[1]): compare entries by
their display score. -/
def keyLe (a b : String × ℚ) : Prop := a.2 ≤ b.2

instance : DecidableRel keyLe :=
  fun a b => inferInstanceAs (Decidable (a.2 ≤ b.2))

instance : IsTotal (String × ℚ) keyLe := ⟨fun a b => le_total a.2 b.2⟩

instance : IsTrans (String × ℚ) keyLe := ⟨fun _ _ _ h1 h2 => le_trans h1 h2⟩

/-- get_top5(): load, map each player to its display score, sort ascending by
score (Python sorted is a stable ascending sort, as is insertionSort with this
relation), pad with placeholders and truncate to 5. -/
def get_top5 (fs : FS) : Except String (List (String × ℚ) × FS) :=
  match load_scores fs with
  | .error e => .error e
  | .ok (db, fs1) =>
      match normalizeP (playersOf db) with
      | .error e => .error e
      | .ok normalized =>
          .ok ((padTop (List.insertionSort keyLe normalized)).take 5, fs1)

/-- The score a document in storage holds for a user: the value of the players
entry, defaulting to the inf sentinel when the user (or the file, or the
players dict) is absent. -/
def scoreOf : JVal → Score
  | .num s => s
  | _ => .inf

def storedBest (fs : FS) (u : String) : Score :=
  match fs.file with
  | some (.val db) => scoreOf (getD (playersOf db) u (.num .inf))
  | _ => .inf

/-- A document with the shape load_scores accepts: a dict whose "players"
value is a dict. -/
def DbShape : JVal → Bool
  | .obj l =>
      match lookupKey l "players" with
      | some (.obj _) => true
      | _ => false
  | _ => false

/-- A well-formed scoreboard document: shaped as above with every stored value
numeric. -/
def DbWF : JVal → Bool
  | .obj l =>
      match lookupKey l "players" with
      | some (.obj p) => p.all (fun kv => kv.2.isNum)
      | _ => false
  | _ => false

/-- The storage holds a well-formed scoreboard document. -/
def FS.wf (fs : FS) : Bool :=
  match fs.file with
  | some (.val db) => DbWF db
  | _ => false

/-- The document currently in storage (junk default for absent or unparseable
files; only used underneath FS.wf). -/
def dbOf (fs : FS) : JVal :=
  match fs.file with
  | some (.val db) => db
  | _ => freshDb

/-- Whitespace in the sense of Python str.strip(). -/
def isPySpace (c : Char) : Bool :=
  c == ' ' || c == '\t' || c == '\n' || c == '\r' || c == '\x0b' || c == '\x0c'

/-- Python str.strip(): drop whitespace from both ends. -/
def pyStrip (s : String) : String :=
  ⟨((s.data.dropWhile isPySpace).reverse.dropWhile isPySpace).reverse⟩

/-- Python str.lower(), on the ASCII range (Char.toLower lowercases exactly
the ASCII uppercase letters, as str.lower does there). -/
def pyLower (s : String) : String := ⟨s.data.map Char.toLower⟩

/-- ask_username_console(): input() (an input failure yields the empty
string), stripped; empty becomes "guest"; the result is lowercased. -/
def ask_username_console (raw : Option String) : String :=
  let username := pyStrip (match raw with | some s => s | none => "")
  let username := if username = "" then "guest" else username
  pyLower username

/-! The session state machine of the main loop. -/

inductive GState where
  | start : GState
  | waiting : GState
  | click : GState
  | result : GState
  | scores : GState
deriving DecidableEq

structure Session where
  game_state : GState
  start_time : Option ℚ
  end_time : Option ℚ
  waiting_delay : Option ℚ
  delay_start : Option ℚ
  last_update_message : String

/-- round(x, 3) on a reaction time. Python uses round-half-to-even on binary
floats; the exact tie rule is irrelevant to every claim, so the model rounds
half up on rationals. -/
def round3 (q : ℚ) : ℚ := (⌊q * 1000 + 1 / 2⌋ : ℚ) / 1000

/-- The MOUSEBUTTONDOWN (button 1) branch of the event loop. now is the
current clock value, onScoresBtn whether the pointer is on the scores button,
randDelay the value random.uniform(3, 7) would produce for this click. There
is no branch for game_state == "waiting": a click during the countdown is
ignored. In the "click" state the source wraps update_score in try/except and
moves to "result" either way. -/
def handleClick (username : String) (now : ℚ) (onScoresBtn : Bool)
    (randDelay : ℚ) (s : Session) (fs : FS) : Session × FS :=
  match s.game_state with
  | .start =>
      if onScoresBtn then ({ s with game_state := .scores }, fs)
      else
        ({ s with
            game_state := .waiting
            waiting_delay := some randDelay
            delay_start := some now }, fs)
  | .click =>
      let reaction := round3 (now - s.start_time.getD 0)
      match update_score username (.fin reaction) fs with
      | .ok (mejoro, fs2) =>
          ({ s with
              end_time := some now
              last_update_message :=
                if mejoro then
                  "Nueva mejor puntuacion: " ++ toString reaction ++ " s"
                else
                  "Tu tiempo: " ++ toString reaction ++ " s (no superaste tu mejor marca)"
              game_state := .result }, fs2)
      | .error e =>
          ({ s with
              end_time := some now
              last_update_message := "Error al actualizar scoreboard: " ++ e
              game_state := .result }, fs)
  | .result => ({ s with game_state := .start }, fs)
  | .scores => ({ s with game_state := .start }, fs)
  | .waiting => (s, fs)

/-- The time-driven state logic of the main loop: in the "waiting" state, once
the sampled delay has elapsed the state flips to "click" and start_time is
recorded. The source guards delay_start is None; waiting_delay is always set
on entry to "waiting" (the getD defaults stand for values the guarded paths
never read). -/
def waitingLogic (now : ℚ) (s : Session) : Session :=
  if s.game_state = .waiting then
    let s1 := if s.delay_start = none then { s with delay_start := some now } else s
    if s1.waiting_delay.getD 0 ≤ now - (s1.delay_start.getD 0) then
      { s1 with game_state := .click, start_time := some now }
    else s1
  else s

/-! Concrete storage states used to instantiate the general theorems. -/

/-- A writable store holding one player alice with best time 1/2. -/
def storeAlice : FS :=
  ⟨some (.val (.obj [("players", .obj [("alice", .num (.fin (mkRat 1 2)))])])), true, 0⟩

/-- A writable store where alice already holds the low best time 1. -/
def storeLow : FS :=
  ⟨some (.val (.obj [("players", .obj [("alice", .num (.fin 1))])])), true, 0⟩

/-- The scoreboard of the end-to-end scenario: bob at 0.300, carol at 0.210. -/
def storeTop : FS :=
  ⟨some (.val (.obj [("players",
    .obj [("bob", .num (.fin (mkRat 3 10))), ("carol", .num (.fin (mkRat 21 100)))])])), true, 0⟩

/-- A valid empty scoreboard in a store whose writes all fail. -/
def storeReadOnly : FS := ⟨some (.val freshDb), false, 0⟩

/-- A store whose players dict holds a non-numeric value for alice. -/
def storeBadValue : FS :=
  ⟨some (.val (.obj [("players", .obj [("alice", .str "abc")])])), true, 0⟩

/-- A store holding the parseable but structurally invalid document {}. -/
def storeEmptyObj : FS := ⟨some (.val (.obj [])), true, 0⟩

/-- A store holding the parseable document 5 (top-level number). -/
def storeNumDoc : FS := ⟨some (.val (.num (.fin 5))), true, 0⟩

/-- A store holding unparseable text. -/
def storeGarbage : FS := ⟨some Raw.garbage, true, 0⟩

/-- A session sitting in the countdown with delay 5 started at time 100. -/
def sessionWaiting : Session := ⟨.waiting, none, none, some 5, some 100, ""⟩

/-! Association-list lemmas. -/

theorem lookupKey_setKey_self (l : List (String × JVal)) (k : String) (v : JVal) :
    lookupKey (setKey l k v) k = some v := by
  induction l with
  | nil => simp [setKey, lookupKey]
  | cons kv t ih =>
      by_cases h : kv.1 == k
      · simp [setKey, lookupKey, h]
      · simp [setKey, lookupKey, h, ih]

theorem lookupKey_setKey_ne (l : List (String × JVal)) (k k' : String) (v : JVal)
    (h : k' ≠ k) : lookupKey (setKey l k v) k' = lookupKey l k' := by
  induction l with
  | nil =>
      simp [setKey, lookupKey]
      intro he
      exact absurd he.symm h
  | cons kv t ih =>
      by_cases hk : kv.1 == k
      · have hk1 : kv.1 = k := by simpa using hk
        have : ¬ (k = k') := fun he => h he.symm
        simp [setKey, lookupKey, hk, hk1, this]
      · by_cases hk2 : kv.1 == k'
        · simp [setKey, lookupKey, hk, hk2]
        · simp [setKey, lookupKey, hk, hk2, ih]

theorem lookupKey_all (l : List (String × JVal)) (k : String) (v : JVal)
    (P : JVal → Bool) (hall : l.all (fun kv => P kv.2) = true)
    (h : lookupKey l k = some v) : P v = true := by
  induction l with
  | nil => simp [lookupKey] at h
  | cons kv t ih =>
      simp only [List.all_cons, Bool.and_eq_true] at hall
      by_cases hk : kv.1 == k
      · simp [lookupKey, hk] at h
        exact h ▸ hall.1
      · simp [lookupKey, hk] at h
        exact ih hall.2 h

theorem setKey_all (l : List (String × JVal)) (k : String) (v : JVal)
    (P : JVal → Bool) (hall : l.all (fun kv => P kv.2) = true) (hv : P v = true) :
    (setKey l k v).all (fun kv => P kv.2) = true := by
  induction l with
  | nil => simp [setKey, hv]
  | cons kv t ih =>
      simp only [List.all_cons, Bool.and_eq_true] at hall
      by_cases hk : kv.1 == k
      · simp [setKey, hk, hv, hall.2]
      · simp [setKey, hk, hall.1, ih hall.2]

theorem getD_setKey_self (l : List (String × JVal)) (k : String) (v d : JVal) :
    getD (setKey l k v) k d = v := by
  simp [getD, lookupKey_setKey_self]

theorem getD_setKey_ne (l : List (String × JVal)) (k k' : String) (v d : JVal)
    (h : k' ≠ k) : getD (setKey l k v) k' d = getD l k' d := by
  simp [getD, lookupKey_setKey_ne l k k' v h]

theorem hasKey_setKey_self (l : List (String × JVal)) (k : String) (v : JVal) :
    hasKey (setKey l k v) k = true := by
  simp [hasKey, lookupKey_setKey_self]

/-! Well-formedness destructors and load_scores lemmas. -/

theorem wf_destruct (fs : FS) (h : fs.wf = true) :
    ∃ l p, fs.file = some (.val (.obj l)) ∧ lookupKey l "players" = some (.obj p) ∧
      p.all (fun kv => kv.2.isNum) = true := by
  unfold FS.wf at h
  cases hf : fs.file with
  | none => rw [hf] at h; simp at h
  | some r =>
      rw [hf] at h
      cases r with
      | garbage => simp at h
      | val db =>
          cases db <;> simp [DbWF] at h
          case obj l =>
            cases hl : lookupKey l "players" with
            | none => rw [hl] at h; simp at h
            | some v =>
                rw [hl] at h
                cases v with
                | obj p => exact ⟨l, p, rfl, hl, h⟩
                | null => exact (Bool.false_ne_true h).elim
                | bool b => exact (Bool.false_ne_true h).elim
                | num s => exact (Bool.false_ne_true h).elim
                | str s => exact (Bool.false_ne_true h).elim
                | arr a => exact (Bool.false_ne_true h).elim

theorem load_scores_of_shape (fs : FS) (l : List (String × JVal))
    (p : List (String × JVal)) (hf : fs.file = some (.val (.obj l)))
    (hl : lookupKey l "players" = some (.obj p)) :
    load_scores fs = .ok (.obj l, fs) := by
  simp [load_scores, hf, readScores, memPlayers, hasKey, hl, getItemPlayers, JVal.isDict]

theorem playersOf_eq (l p : List (String × JVal))
    (hl : lookupKey l "players" = some (.obj p)) : playersOf (.obj l) = p := by
  simp [playersOf, hl]

theorem storedBest_eq (fs : FS) (l p : List (String × JVal)) (u : String)
    (hf : fs.file = some (.val (.obj l)))
    (hl : lookupKey l "players" = some (.obj p)) :
    storedBest fs u = scoreOf (getD p u (.num .inf)) := by
  simp [storedBest, hf, playersOf_eq l p hl]

theorem getD_eq_num (p : List (String × JVal)) (u : String)
    (hall : p.all (fun kv => kv.2.isNum) = true) :
    getD p u (.num .inf) = .num (scoreOf (getD p u (.num .inf))) := by
  unfold getD
  cases hl : lookupKey p u with
  | none => simp [scoreOf]
  | some v =>
      have := lookupKey_all p u v _ hall hl
      cases v <;> simp [JVal.isNum] at this ⊢
      simp [scoreOf]

/-! Score-order lemmas. -/

theorem minScore_eq_left (s : Score) (t : ℚ) (hb : Score.lt (.fin t) s = false) :
    minScore s (.fin t) = s := by
  cases s with
  | inf => simp [Score.lt] at hb
  | fin b =>
      simp only [Score.lt, decide_eq_false_iff_not] at hb
      by_cases hbt : b < t
      · simp [minScore, Score.lt, hbt]
      · have hbe : b = t := le_antisymm (le_of_not_lt hb) (le_of_not_lt hbt)
        simp [minScore, Score.lt, hbe]

theorem minScore_eq_right (s : Score) (t : ℚ) (hb : Score.lt (.fin t) s = true) :
    minScore s (.fin t) = .fin t := by
  cases s with
  | inf => simp [minScore, Score.lt]
  | fin b =>
      simp only [Score.lt, decide_eq_true_eq] at hb
      simp [minScore, Score.lt, not_lt_of_gt hb]

/-! Effects of save_scores on storage. -/

theorem storedBest_save_writable (db : JVal) (fs : FS) (v : String)
    (hw : fs.writable = true) :
    storedBest (save_scores db fs) v = scoreOf (getD (playersOf db) v (.num .inf)) := by
  simp [save_scores, writeFile, storedBest, hw]

theorem storedBest_save_not_writable (db : JVal) (fs : FS) (v : String)
    (hw : fs.writable = false) :
    storedBest (save_scores db fs) v = storedBest fs v := by
  simp [save_scores, writeFile, storedBest, hw]

theorem playersOf_setPlayers (l p2 : List (String × JVal)) :
    playersOf (setPlayers (.obj l) p2) = p2 := by
  simp [setPlayers, playersOf, lookupKey_setKey_self]

theorem DbWF_setPlayers (l p2 : List (String × JVal))
    (hall : p2.all (fun kv => kv.2.isNum) = true) :
    DbWF (setPlayers (.obj l) p2) = true := by
  simp [setPlayers, DbWF, lookupKey_setKey_self, hall]

theorem wf_save_writable (fs : FS) (db : JVal) (hw : fs.writable = true)
    (hdb : DbWF db = true) : (save_scores db fs).wf = true := by
  simp [save_scores, writeFile, FS.wf, hw, hdb]

theorem wf_save_not_writable (fs : FS) (db : JVal) (hw : fs.writable = false) :
    (save_scores db fs).wf = fs.wf := by
  simp [save_scores, writeFile, FS.wf, hw]

theorem scoreOf_num (s : Score) : scoreOf (.num s) = s := rfl

/-! Behaviour of update_score and register_or_get_user on a well-formed
store. -/

theorem update_score_eq (fs : FS) (u : String) (t : ℚ) (h : fs.wf = true) :
    update_score u (.fin t) fs =
      if Score.lt (.fin t) (storedBest fs u) = true then
        .ok (true, save_scores
          (setPlayers (dbOf fs) (setKey (playersOf (dbOf fs)) u (.num (.fin t)))) fs)
      else .ok (false, fs) := by
  obtain ⟨l, p, hf, hl, hall⟩ := wf_destruct fs h
  have hload := load_scores_of_shape fs l p hf hl
  have hdb : dbOf fs = .obj l := by simp [dbOf, hf]
  have hsb : storedBest fs u = scoreOf (getD p u (.num .inf)) := storedBest_eq fs l p u hf hl
  rw [hsb, hdb]
  unfold update_score
  rw [hload]
  simp only [playersOf_eq l p hl]
  rw [getD_eq_num p u hall]
  simp only [pyLtScore]
  cases hb : Score.lt (.fin t) (scoreOf (getD p u (.num .inf))) with
  | false => simp only [scoreOf_num, hb]; simp
  | true => simp only [scoreOf_num, hb]; simp

theorem register_eq (fs : FS) (u : String) (h : fs.wf = true) :
    register_or_get_user u fs =
      if hasKey (playersOf (dbOf fs)) u = true then
        .ok (getD (playersOf (dbOf fs)) u (.num .inf), fs)
      else
        .ok (.num .inf, save_scores
          (setPlayers (dbOf fs) (setKey (playersOf (dbOf fs)) u (.num .inf))) fs) := by
  obtain ⟨l, p, hf, hl, hall⟩ := wf_destruct fs h
  have hload := load_scores_of_shape fs l p hf hl
  have hdb : dbOf fs = .obj l := by simp [dbOf, hf]
  rw [hdb]
  simp only [register_or_get_user, hload, playersOf_eq l p hl]

theorem hasKey_false_getD (p : List (String × JVal)) (u : String) (d : JVal)
    (h : hasKey p u = false) : getD p u d = d := by
  unfold hasKey at h
  unfold getD
  cases hl : lookupKey p u with
  | none => rfl
  | some v => rw [hl] at h; simp at h

theorem dbOf_save_writable (db : JVal) (fs : FS) (hw : fs.writable = true) :
    dbOf (save_scores db fs) = db := by
  simp [save_scores, writeFile, dbOf, hw]

theorem update_score_min (fs : FS) (u : String) (t : ℚ)
    (h : fs.wf = true) (hw : fs.writable = true) :
    ∃ fs2, update_score u (.fin t) fs = .ok (Score.lt (.fin t) (storedBest fs u), fs2) ∧
      fs2.wf = true ∧ fs2.writable = true ∧
      storedBest fs2 u = minScore (storedBest fs u) (.fin t) ∧
      (∀ v, v ≠ u → storedBest fs2 v = storedBest fs v) ∧
      (Score.lt (.fin t) (storedBest fs u) = false → fs2 = fs) := by
  obtain ⟨l, p, hf, hl, hall⟩ := wf_destruct fs h
  have hdb : dbOf fs = .obj l := by simp [dbOf, hf]
  rw [update_score_eq fs u t h]
  cases hb : Score.lt (.fin t) (storedBest fs u) with
  | false =>
      exact ⟨fs, by simp, h, hw, (minScore_eq_left _ t hb).symm,
        fun v hv => rfl, fun _ => rfl⟩
  | true =>
      have hall2 : (setKey p u (.num (.fin t))).all (fun kv => kv.2.isNum) = true :=
        setKey_all p u (.num (.fin t)) _ hall rfl
      have hwf2 : DbWF (setPlayers (dbOf fs)
          (setKey (playersOf (dbOf fs)) u (.num (.fin t)))) = true := by
        rw [hdb, playersOf_eq l p hl]
        exact DbWF_setPlayers l _ hall2
      refine ⟨_, by simp, wf_save_writable fs _ hw hwf2,
        by simp [save_scores, writeFile, hw], ?_, ?_, by simp⟩
      · rw [storedBest_save_writable _ fs u hw, hdb, playersOf_eq l p hl,
          playersOf_setPlayers, getD_setKey_self, scoreOf_num, minScore_eq_right _ t hb]
      · intro v hv
        rw [storedBest_save_writable _ fs v hw, hdb, playersOf_eq l p hl,
          playersOf_setPlayers, getD_setKey_ne p u v _ _ hv,
          ← storedBest_eq fs l p v hf hl]

theorem register_min (fs : FS) (u : String) (h : fs.wf = true) (hw : fs.writable = true) :
    ∃ r fs2, register_or_get_user u fs = .ok (r, fs2) ∧
      fs2.wf = true ∧ fs2.writable = true ∧
      r = .num (storedBest fs u) ∧
      (∀ v, storedBest fs2 v = storedBest fs v) ∧
      hasKey (playersOf (dbOf fs2)) u = true ∧
      (hasKey (playersOf (dbOf fs)) u = true → fs2 = fs) := by
  obtain ⟨l, p, hf, hl, hall⟩ := wf_destruct fs h
  have hdb : dbOf fs = .obj l := by simp [dbOf, hf]
  have hp : playersOf (dbOf fs) = p := by rw [hdb]; exact playersOf_eq l p hl
  have hsb : ∀ v, storedBest fs v = scoreOf (getD p v (.num .inf)) :=
    fun v => storedBest_eq fs l p v hf hl
  rw [register_eq fs u h, hp]
  cases hb : hasKey p u with
  | true =>
      refine ⟨getD p u (.num .inf), fs, by simp, h, hw, ?_, fun v => rfl, ?_, fun _ => rfl⟩
      · rw [hsb u]
        exact getD_eq_num p u hall
      · rw [hp]
        exact hb
  | false =>
      have hall2 : (setKey p u (.num .inf)).all (fun kv => kv.2.isNum) = true :=
        setKey_all p u (.num .inf) _ hall rfl
      have hwf2 : DbWF (setPlayers (dbOf fs) (setKey p u (.num .inf))) = true := by
        rw [hdb]
        exact DbWF_setPlayers l _ hall2
      refine ⟨.num .inf, save_scores (setPlayers (dbOf fs) (setKey p u (.num .inf))) fs,
        by simp, wf_save_writable fs _ hw hwf2,
        by simp [save_scores, writeFile, hw], ?_, ?_, ?_, ?_⟩
      · rw [hsb u, hasKey_false_getD p u _ hb, scoreOf_num]
      · intro v
        rw [storedBest_save_writable _ fs v hw, hdb, playersOf_setPlayers]
        by_cases hv : v = u
        · subst hv
          rw [getD_setKey_self, scoreOf_num, hsb v, hasKey_false_getD p v _ hb, scoreOf_num]
        · rw [getD_setKey_ne p u v _ _ hv, hsb v]
      · rw [dbOf_save_writable _ fs hw, hdb, playersOf_setPlayers, hasKey_setKey_self]
      · intro hc
        exact (Bool.false_ne_true hc).elim

/-! Further Score lemmas (for the monotonicity claims). -/

theorem le_minScore_left (a b : Score) : Score.le (minScore a b) a = true := by
  cases a with
  | inf => cases b <;> simp [minScore, Score.lt, Score.le]
  | fin qa =>
      cases b with
      | inf => simp [minScore, Score.lt, Score.le]
      | fin qb =>
          by_cases hab : qa < qb
          · simp [minScore, Score.lt, Score.le, hab]
          · simp [minScore, Score.lt, Score.le, hab, le_of_not_lt hab]

theorem minScore_minScore (s : Score) (t1 t2 : ℚ) (h : t1 ≤ t2) :
    minScore (minScore s (.fin t2)) (.fin t1) = minScore s (.fin t1) := by
  cases s with
  | inf => simp [minScore, Score.lt, not_lt_of_ge h]
  | fin b =>
      by_cases hb2 : b < t2
      · simp [minScore, Score.lt, hb2]
      · have hb2' : t2 ≤ b := le_of_not_lt hb2
        have hb1 : ¬ b < t1 := not_lt_of_ge (le_trans h hb2')
        simp [minScore, Score.lt, hb2, hb1, not_lt_of_ge h]

theorem minScore_minScore_rev (s : Score) (t1 t2 : ℚ) (h : t1 ≤ t2) :
    minScore (minScore s (.fin t1)) (.fin t2) = minScore s (.fin t1) := by
  cases s with
  | inf =>
      simp [minScore, Score.lt, not_lt_of_ge h]
      intro h2
      exact le_antisymm h2 h
  | fin b =>
      by_cases hb1 : b < t1
      · have hb2 : b < t2 := lt_of_lt_of_le hb1 h
        simp [minScore, Score.lt, hb1, hb2]
      · simp [minScore, Score.lt, hb1, not_lt_of_ge h]
        intro h2
        exact le_antisymm h2 h

theorem load_scores_of_wf (fs : FS) (h : fs.wf = true) :
    load_scores fs = .ok (dbOf fs, fs) := by
  obtain ⟨l, p, hf, hl, hall⟩ := wf_destruct fs h
  rw [show dbOf fs = .obj l by simp [dbOf, hf]]
  exact load_scores_of_shape fs l p hf hl

/-! Lemmas about the get_top5 pipeline. -/

theorem dispOf_num (s : Score) : dispOf (.num s) = .ok (dispQ (.num s)) := by
  cases s <;> rfl

theorem normalizeP_ok (p : List (String × JVal))
    (hall : p.all (fun kv => kv.2.isNum) = true) :
    normalizeP p = .ok (p.map (fun kv => (kv.1, dispQ kv.2))) := by
  induction p with
  | nil => rfl
  | cons kv t ih =>
      simp only [List.all_cons, Bool.and_eq_true] at hall
      obtain ⟨h1, h2⟩ := hall
      cases hk : kv.2 with
      | num s => simp [normalizeP, hk, dispOf_num, ih h2]
      | null => rw [hk] at h1; simp [JVal.isNum] at h1
      | bool b => rw [hk] at h1; simp [JVal.isNum] at h1
      | str s => rw [hk] at h1; simp [JVal.isNum] at h1
      | arr a => rw [hk] at h1; simp [JVal.isNum] at h1
      | obj o => rw [hk] at h1; simp [JVal.isNum] at h1

theorem padTopAux_spec (fuel : Nat) : ∀ l : List (String × ℚ), 5 ≤ l.length + fuel →
    ∃ suffix, padTopAux fuel l = l ++ suffix ∧ (∀ x ∈ suffix, x.2 = 0) ∧
      (padTopAux fuel l).length = max l.length 5 := by
  induction fuel with
  | zero =>
      intro l hlen
      simp only [Nat.add_zero] at hlen
      exact ⟨[], by simp [padTopAux], by simp, by simp [padTopAux, Nat.max_eq_left hlen]⟩
  | succ fuel ih =>
      intro l hlen
      by_cases hl : l.length < 5
      · have hlen2 : 5 ≤ (l ++ [("user" ++ toString (l.length + 1), (0 : ℚ))]).length + fuel := by
          simp
          omega
        obtain ⟨suffix, hpad, hzero, hmax⟩ := ih _ hlen2
        refine ⟨("user" ++ toString (l.length + 1), (0 : ℚ)) :: suffix, ?_, ?_, ?_⟩
        · rw [padTopAux, if_pos hl, hpad]
          simp
        · intro x hx
          rcases List.mem_cons.mp hx with hx | hx
          · rw [hx]
          · exact hzero x hx
        · rw [padTopAux, if_pos hl, hmax]
          simp
          omega
      · refine ⟨[], by simp [padTopAux, hl], by simp, ?_⟩
        rw [padTopAux, if_neg hl]
        simp
        omega

theorem padTop_spec (l : List (String × ℚ)) :
    ∃ suffix, padTop l = l ++ suffix ∧ (∀ x ∈ suffix, x.2 = 0) ∧
      (padTop l).length = max l.length 5 ∧ (5 ≤ l.length → suffix = []) := by
  obtain ⟨suffix, hpad, hzero, hmax⟩ := padTopAux_spec 5 l (by omega)
  refine ⟨suffix, hpad, hzero, hmax, ?_⟩
  intro h5
  have : l.length + suffix.length = max l.length 5 := by
    rw [← List.length_append, ← hpad]
    exact hmax
  rw [Nat.max_eq_left h5] at this
  have : suffix.length = 0 := by omega
  exact List.length_eq_zero.mp this

/-! The claims. -/

/-- C1: update(u, t) returns true exactly when t is strictly below the best
stored for u before the call (an absent record or the inf sentinel being
greater than any finite candidate); on true the stored best becomes t, on
false the store is left untouched. -/
theorem claim_C1_update_iff (fs : FS) (u : String) (t : ℚ)
    (h : fs.wf = true) (hw : fs.writable = true) :
    ∃ b fs2, update_score u (.fin t) fs = .ok (b, fs2) ∧
      (b = true ↔ Score.lt (.fin t) (storedBest fs u) = true) ∧
      (∀ q : ℚ, Score.lt (.fin q) .inf = true) ∧
      (b = true → storedBest fs2 u = .fin t) ∧
      (b = false → fs2 = fs) := by
  obtain ⟨fs2, heq, _, _, hmin, _, hfalse⟩ := update_score_min fs u t h hw
  refine ⟨_, fs2, heq, Iff.rfl, fun q => rfl, ?_, ?_⟩
  · intro hb
    rw [hmin, minScore_eq_right _ t hb]
  · intro hb
    exact hfalse hb

/-- C1 witness: on the store holding alice at 1/2, the candidate 1/4 improves
the best, and the theorem instantiates with its hypotheses discharged. -/
theorem claim_C1_witness :
    ∃ b fs2, update_score "alice" (.fin (mkRat 1 4)) storeAlice = .ok (b, fs2) ∧
      (b = true ↔ Score.lt (.fin (mkRat 1 4)) (storedBest storeAlice "alice") = true) ∧
      (∀ q : ℚ, Score.lt (.fin q) .inf = true) ∧
      (b = true → storedBest fs2 "alice" = .fin (mkRat 1 4)) ∧
      (b = false → fs2 = storeAlice) :=
  claim_C1_update_iff storeAlice "alice" (mkRat 1 4) rfl rfl

/-- C5 counterexample: with alice already stored at best 1 and candidates
t1 = 2 < t2 = 3, calling update(alice, 3) and then update(alice, 2) leaves
the stored best at 1, not at t1 = 2 as the claim requires. -/
theorem claim_C5_counterexample :
    update_score "alice" (.fin 3) storeLow = .ok (false, storeLow) ∧
    update_score "alice" (.fin 2) storeLow = .ok (false, storeLow) ∧
    (2 : ℚ) < 3 ∧
    storedBest storeLow "alice" = .fin 1 ∧
    Score.fin 1 ≠ Score.fin 2 := by
  refine ⟨rfl, rfl, by norm_num, rfl, by decide⟩

/-- C5 (amended): an update never increases the stored best, and for
t1 < t2 the sequences update(u, t2); update(u, t1) and
update(u, t1); update(u, t2) both end with the stored best equal to
min(previous best, t1) — which is t1 itself whenever the previous best was
the unset sentinel or at least t1. -/
theorem claim_C5_amended (fs : FS) (u : String) (t1 t2 : ℚ)
    (h : fs.wf = true) (hw : fs.writable = true) (hlt : t1 < t2) :
    (∀ t : ℚ, ∀ b fs2, update_score u (.fin t) fs = .ok (b, fs2) →
        Score.le (storedBest fs2 u) (storedBest fs u) = true) ∧
    (∀ b1 b2 fsA fsB, update_score u (.fin t2) fs = .ok (b1, fsA) →
        update_score u (.fin t1) fsA = .ok (b2, fsB) →
        storedBest fsB u = minScore (storedBest fs u) (.fin t1)) ∧
    (∀ b1 b2 fsA fsB, update_score u (.fin t1) fs = .ok (b1, fsA) →
        update_score u (.fin t2) fsA = .ok (b2, fsB) →
        storedBest fsB u = minScore (storedBest fs u) (.fin t1)) := by
  refine ⟨?_, ?_, ?_⟩
  · intro t b fs2 heq
    obtain ⟨fs2x, heqx, _, _, hmin, _, _⟩ := update_score_min fs u t h hw
    rw [heqx] at heq
    simp only [Except.ok.injEq, Prod.mk.injEq] at heq
    obtain ⟨hb, hfs⟩ := heq
    subst hfs
    rw [hmin]
    exact le_minScore_left _ _
  · intro b1 b2 fsA fsB h1 h2
    obtain ⟨fsAx, heqA, hwfA, hwA, hminA, _, _⟩ := update_score_min fs u t2 h hw
    rw [heqA] at h1
    simp only [Except.ok.injEq, Prod.mk.injEq] at h1
    obtain ⟨hb1, hfsA⟩ := h1
    subst hfsA
    obtain ⟨fsBx, heqB, _, _, hminB, _, _⟩ := update_score_min fsAx u t1 hwfA hwA
    rw [heqB] at h2
    simp only [Except.ok.injEq, Prod.mk.injEq] at h2
    obtain ⟨hb2, hfsB⟩ := h2
    subst hfsB
    rw [hminB, hminA]
    exact minScore_minScore _ t1 t2 (le_of_lt hlt)
  · intro b1 b2 fsA fsB h1 h2
    obtain ⟨fsAx, heqA, hwfA, hwA, hminA, _, _⟩ := update_score_min fs u t1 h hw
    rw [heqA] at h1
    simp only [Except.ok.injEq, Prod.mk.injEq] at h1
    obtain ⟨hb1, hfsA⟩ := h1
    subst hfsA
    obtain ⟨fsBx, heqB, _, _, hminB, _, _⟩ := update_score_min fsAx u t2 hwfA hwA
    rw [heqB] at h2
    simp only [Except.ok.injEq, Prod.mk.injEq] at h2
    obtain ⟨hb2, hfsB⟩ := h2
    subst hfsB
    rw [hminB, hminA]
    exact minScore_minScore_rev _ t1 t2 (le_of_lt hlt)

/-- C5 witness: the amended theorem instantiated on the alice store with
t1 = 2 and t2 = 3, all hypotheses discharged. -/
theorem claim_C5_witness :
    (∀ t : ℚ, ∀ b fs2, update_score "alice" (.fin t) storeLow = .ok (b, fs2) →
        Score.le (storedBest fs2 "alice") (storedBest storeLow "alice") = true) ∧
    (∀ b1 b2 fsA fsB, update_score "alice" (.fin 3) storeLow = .ok (b1, fsA) →
        update_score "alice" (.fin 2) fsA = .ok (b2, fsB) →
        storedBest fsB "alice" = minScore (storedBest storeLow "alice") (.fin 2)) ∧
    (∀ b1 b2 fsA fsB, update_score "alice" (.fin 2) storeLow = .ok (b1, fsA) →
        update_score "alice" (.fin 3) fsA = .ok (b2, fsB) →
        storedBest fsB "alice" = minScore (storedBest storeLow "alice") (.fin 2)) :=
  claim_C5_amended storeLow "alice" 2 3 rfl rfl (by norm_num)

/-- C6: register_or_get is idempotent: an immediate second call returns the
same best value and leaves the whole storage state (content and write count)
exactly as the first call left it, so it performs no additional write. -/
theorem claim_C6_register_idempotent (fs : FS) (u : String)
    (h : fs.wf = true) (hw : fs.writable = true) :
    ∃ r1 fs1, register_or_get_user u fs = .ok (r1, fs1) ∧
      register_or_get_user u fs1 = .ok (r1, fs1) := by
  obtain ⟨r, fs1, heq, hwf1, hw1, hr, hsb1, hkey1, _⟩ := register_min fs u h hw
  refine ⟨r, fs1, heq, ?_⟩
  obtain ⟨r2, fs2, heq2, _, _, hr2, _, _, hpresent⟩ := register_min fs1 u hwf1 hw1
  have hfs2 : fs2 = fs1 := hpresent hkey1
  rw [heq2, hfs2, hr2, hsb1 u, ← hr]

/-- C6 witness: registering the new user dave twice on the alice store. -/
theorem claim_C6_witness :
    ∃ r1 fs1, register_or_get_user "dave" storeAlice = .ok (r1, fs1) ∧
      register_or_get_user "dave" fs1 = .ok (r1, fs1) :=
  claim_C6_register_idempotent storeAlice "dave" rfl rfl

/-- C8: registering a new user stores the inf sentinel; the stored document
read back by load_scores is identical to what was written (Python json dumps
float inf as Infinity and loads it back, allow_nan being the default), the
entry for u is still the sentinel, and the sentinel never compares below any
finite time. -/
theorem claim_C8_sentinel_roundtrip (fs : FS) (u : String)
    (h : fs.wf = true) (hw : fs.writable = true)
    (habs : hasKey (playersOf (dbOf fs)) u = false) :
    ∃ fs1, register_or_get_user u fs = .ok (.num .inf, fs1) ∧
      load_scores fs1 = .ok (dbOf fs1, fs1) ∧
      getD (playersOf (dbOf fs1)) u (.num .inf) = .num .inf ∧
      storedBest fs1 u = .inf ∧
      (∀ q : ℚ, Score.lt .inf (.fin q) = false) := by
  obtain ⟨l, p, hf, hl, hall⟩ := wf_destruct fs h
  have hp : playersOf (dbOf fs) = p := by
    rw [show dbOf fs = .obj l by simp [dbOf, hf]]
    exact playersOf_eq l p hl
  have hsbu : storedBest fs u = .inf := by
    rw [storedBest_eq fs l p u hf hl, hasKey_false_getD p u _ (hp ▸ habs), scoreOf_num]
  obtain ⟨r, fs1, heq, hwf1, hw1, hr, hsb1, hkey1, _⟩ := register_min fs u h hw
  rw [hr, hsbu] at heq
  refine ⟨fs1, heq, load_scores_of_wf fs1 hwf1, ?_, ?_, fun q => rfl⟩
  · obtain ⟨l1, p1, hf1, hl1, hall1⟩ := wf_destruct fs1 hwf1
    have hp1 : playersOf (dbOf fs1) = p1 := by
      rw [show dbOf fs1 = .obj l1 by simp [dbOf, hf1]]
      exact playersOf_eq l1 p1 hl1
    rw [hp1, getD_eq_num p1 u hall1, ← storedBest_eq fs1 l1 p1 u hf1 hl1, hsb1 u, hsbu]
  · rw [hsb1 u, hsbu]

/-- C8 witness: the sentinel round trip for the new user dave on the alice
store. -/
theorem claim_C8_witness :
    ∃ fs1, register_or_get_user "dave" storeAlice = .ok (.num .inf, fs1) ∧
      load_scores fs1 = .ok (dbOf fs1, fs1) ∧
      getD (playersOf (dbOf fs1)) "dave" (.num .inf) = .num .inf ∧
      storedBest fs1 "dave" = .inf ∧
      (∀ q : ℚ, Score.lt .inf (.fin q) = false) :=
  claim_C8_sentinel_roundtrip storeAlice "dave" rfl rfl rfl

/-- C10: an update or a registration for u leaves the stored best of every
other user v untouched, whether or not the write succeeds. -/
theorem claim_C10_frame (fs : FS) (u v : String) (t : ℚ)
    (h : fs.wf = true) (hne : v ≠ u) :
    (∀ b fs2, update_score u (.fin t) fs = .ok (b, fs2) →
        storedBest fs2 v = storedBest fs v) ∧
    (∀ r fs2, register_or_get_user u fs = .ok (r, fs2) →
        storedBest fs2 v = storedBest fs v) := by
  obtain ⟨l, p, hf, hl, hall⟩ := wf_destruct fs h
  have hdb : dbOf fs = .obj l := by simp [dbOf, hf]
  constructor
  · intro b fs2 heq
    rw [update_score_eq fs u t h] at heq
    by_cases hb : Score.lt (.fin t) (storedBest fs u) = true
    · rw [if_pos hb] at heq
      simp only [Except.ok.injEq, Prod.mk.injEq] at heq
      obtain ⟨hb1, hfs2⟩ := heq
      subst hfs2
      cases hwb : fs.writable with
      | false => exact storedBest_save_not_writable _ fs v hwb
      | true =>
          rw [storedBest_save_writable _ fs v hwb, hdb, playersOf_eq l p hl,
            playersOf_setPlayers, getD_setKey_ne p u v _ _ hne,
            ← storedBest_eq fs l p v hf hl]
    · rw [if_neg hb] at heq
      simp only [Except.ok.injEq, Prod.mk.injEq] at heq
      obtain ⟨hb1, hfs2⟩ := heq
      subst hfs2
      rfl
  · intro r fs2 heq
    rw [register_eq fs u h] at heq
    by_cases hb : hasKey (playersOf (dbOf fs)) u = true
    · rw [if_pos hb] at heq
      simp only [Except.ok.injEq, Prod.mk.injEq] at heq
      obtain ⟨hr, hfs2⟩ := heq
      subst hfs2
      rfl
    · rw [if_neg hb] at heq
      simp only [Except.ok.injEq, Prod.mk.injEq] at heq
      obtain ⟨hr, hfs2⟩ := heq
      subst hfs2
      cases hwb : fs.writable with
      | false => exact storedBest_save_not_writable _ fs v hwb
      | true =>
          rw [storedBest_save_writable _ fs v hwb, hdb, playersOf_eq l p hl,
            playersOf_setPlayers, getD_setKey_ne p u v _ _ hne,
            ← storedBest_eq fs l p v hf hl]

/-- C10 witness: updating and registering bob on the alice store leaves the
best of alice unchanged. -/
theorem claim_C10_witness :
    (∀ b fs2, update_score "bob" (.fin 2) storeAlice = .ok (b, fs2) →
        storedBest fs2 "alice" = storedBest storeAlice "alice") ∧
    (∀ r fs2, register_or_get_user "bob" storeAlice = .ok (r, fs2) →
        storedBest fs2 "alice" = storedBest storeAlice "alice") :=
  claim_C10_frame storeAlice "bob" "alice" 2 rfl (by decide)

/-- C2 counterexample: the parseable but structurally invalid document {} is
loaded as an empty scoreboard, but the storage is left holding {} rather than
being overwritten with a fresh empty scoreboard; and the parseable document 5
makes the membership test raise a TypeError that load_scores propagates. -/
theorem claim_C2_counterexample :
    load_scores storeEmptyObj = .ok (freshDb, storeEmptyObj) ∧
    storeEmptyObj.file = some (.val (.obj [])) ∧
    JVal.obj [] ≠ freshDb ∧
    load_scores storeNumDoc = .error "TypeError" := by
  refine ⟨rfl, rfl, ?_, rfl⟩
  simp [freshDb]

/-- C2 (amended): an unparseable document is replaced by a fresh empty
scoreboard and an empty scoreboard is returned; a document parsing to an
object without a "players" key, or with a non-dict "players" value, yields an
empty scoreboard without crashing but leaves storage unchanged; a document
parsing to a number, boolean or null makes the membership test raise and the
failure propagates out of load(). -/
theorem claim_C2_amended (fs : FS) :
    (fs.writable = true → fs.file = some .garbage →
        load_scores fs = .ok (freshDb, ⟨some (.val freshDb), true, fs.writes + 1⟩)) ∧
    (∀ l, fs.file = some (.val (.obj l)) → lookupKey l "players" = none →
        load_scores fs = .ok (freshDb, fs)) ∧
    (∀ l v, fs.file = some (.val (.obj l)) → lookupKey l "players" = some v →
        v.isDict = false → load_scores fs = .ok (freshDb, fs)) ∧
    (∀ s, fs.file = some (.val (.num s)) → load_scores fs = .error "TypeError") ∧
    (∀ b, fs.file = some (.val (.bool b)) → load_scores fs = .error "TypeError") ∧
    (fs.file = some (.val .null) → load_scores fs = .error "TypeError") := by
  refine ⟨?_, ?_, ?_, ?_, ?_, ?_⟩
  · intro hw hf
    simp [load_scores, hf, readScores, writeFile, hw]
  · intro l hf hl
    simp [load_scores, hf, readScores, memPlayers, hasKey, hl]
  · intro l v hf hl hv
    simp [load_scores, hf, readScores, memPlayers, hasKey, hl, getItemPlayers, hv]
  · intro s hf
    simp [load_scores, hf, readScores, memPlayers]
  · intro b hf
    simp [load_scores, hf, readScores, memPlayers]
  · intro hf
    simp [load_scores, hf, readScores, memPlayers]

/-- C2 witness: the amended theorem instantiated on concrete stores holding
garbage, the document \x7b\x7d and the document 5. -/
theorem claim_C2_witness :
    load_scores storeGarbage = .ok (freshDb, ⟨some (.val freshDb), true, 1⟩) ∧
    load_scores storeEmptyObj = .ok (freshDb, storeEmptyObj) ∧
    load_scores storeNumDoc = .error "TypeError" :=
  ⟨(claim_C2_amended storeGarbage).1 rfl rfl,
   (claim_C2_amended storeEmptyObj).2.1 [] rfl rfl,
   (claim_C2_amended storeNumDoc).2.2.2.1 (.fin 5) rfl⟩

/-- C3 counterexample: on a store whose writes fail, updating alice with a
strictly better time is caught inside save_scores, nothing reaches storage
(the file is unchanged, one write was attempted), yet update_score returns
true, not the false the claim requires for a persisting failure. -/
theorem claim_C3_counterexample :
    update_score "alice" (.fin 1) storeReadOnly =
      .ok (true, ⟨some (.val freshDb), false, 1⟩) ∧
    (⟨some (.val freshDb), false, 1⟩ : FS).file = storeReadOnly.file :=
  ⟨rfl, rfl⟩

/-- C3 (amended): a failure while comparing the candidate with the stored
best is caught and makes update return false with the store untouched; a
failure while persisting is caught inside save_scores and never propagates,
but update still returns true when the candidate improved the in-memory
best. -/
theorem claim_C3_amended (fs : FS) (u : String) (t : ℚ) :
    (∀ l p s, fs.file = some (.val (.obj l)) →
        lookupKey l "players" = some (.obj p) →
        lookupKey p u = some (.str s) →
        update_score u (.fin t) fs = .ok (false, fs)) ∧
    (fs.wf = true → fs.writable = false →
        Score.lt (.fin t) (storedBest fs u) = true →
        ∃ fs2, update_score u (.fin t) fs = .ok (true, fs2) ∧ fs2.file = fs.file) := by
  constructor
  · intro l p s hf hl hlu
    have hload := load_scores_of_shape fs l p hf hl
    simp only [update_score, hload, playersOf_eq l p hl]
    simp [getD, hlu, pyLtScore]
  · intro h hw hb
    rw [update_score_eq fs u t h, if_pos hb]
    exact ⟨_, rfl, by simp [save_scores, writeFile, hw]⟩

/-- C3 witness: the comparison-failure case on the store holding a string
value for alice, and the persist-failure case on the read-only store. -/
theorem claim_C3_witness :
    update_score "alice" (.fin 1) storeBadValue = .ok (false, storeBadValue) ∧
    ∃ fs2, update_score "alice" (.fin 1) storeReadOnly = .ok (true, fs2) ∧
      fs2.file = storeReadOnly.file :=
  ⟨(claim_C3_amended storeBadValue "alice" 1).1
      [("players", .obj [("alice", .str "abc")])] [("alice", .str "abc")] "abc" rfl rfl rfl,
   (claim_C3_amended storeReadOnly "alice" 1).2 rfl rfl rfl⟩

/-- C7: a primary-action click delivered while the session is in the waiting
(Countdown) state before the sampled delay has elapsed changes nothing: the
event handler has no branch for the waiting state, so session and storage are
returned untouched, and the time-driven logic does not fire either. -/
theorem claim_C7_click_in_countdown (username : String) (now : ℚ)
    (onScoresBtn : Bool) (randDelay : ℚ) (s : Session) (fs : FS) (d w : ℚ)
    (hst : s.game_state = .waiting) (hd : s.delay_start = some d)
    (hwd : s.waiting_delay = some w) (hnot : now - d < w) :
    handleClick username now onScoresBtn randDelay s fs = (s, fs) ∧
    waitingLogic now s = s := by
  constructor
  · simp [handleClick, hst]
  · simp [waitingLogic, hst, hd, hwd, not_le_of_lt hnot]

/-- C7 witness: a click at time 101 during a countdown of delay 5 started at
time 100 leaves the session and the scoreboard exactly as they were. -/
theorem claim_C7_witness :
    handleClick "dani" 101 false 4 sessionWaiting storeAlice =
      (sessionWaiting, storeAlice) ∧
    waitingLogic 101 sessionWaiting = sessionWaiting :=
  claim_C7_click_in_countdown "dani" 101 false 4 sessionWaiting storeAlice 100 5
    rfl rfl rfl (by norm_num)

/-- C9: the username used by the program is the entered text normalized:
stripped of surrounding whitespace and lowercased; input that is empty (after
stripping, as an input of only whitespace is) yields guest, as does a failing
input() call. -/
theorem claim_C9_username (raw : String) :
    ask_username_console (some raw) =
      (if pyStrip raw = "" then "guest" else pyLower (pyStrip raw)) ∧
    ask_username_console none = "guest" := by
  constructor
  · by_cases h : pyStrip raw = ""
    · simp only [ask_username_console, h, if_pos]
      decide
    · simp [ask_username_console, h]
  · rfl

/-- Core shape of the get_top5 output: sort, pad, truncate applied to any
normalized entry list. -/
theorem top5_core (m : List (String × ℚ)) :
    ∃ l1, (padTop (List.insertionSort keyLe m)).take 5 = l1 ∧
      l1.length = 5 ∧
      List.Pairwise keyLe (l1.take (min m.length 5)) ∧
      (∀ x ∈ l1.drop (min m.length 5), x.2 = 0) ∧
      (m.length ≤ 5 → (l1.take (min m.length 5)).Perm m) ∧
      (5 ≤ m.length → l1.drop (min m.length 5) = []) := by
  obtain ⟨suffix, hpad, hzero, hmaxlen, hge5⟩ := padTop_spec (List.insertionSort keyLe m)
  have hsort : List.Pairwise keyLe (List.insertionSort keyLe m) :=
    List.sorted_insertionSort keyLe m
  have hperm : (List.insertionSort keyLe m).Perm m := List.perm_insertionSort keyLe m
  have hslen : (List.insertionSort keyLe m).length = m.length := hperm.length_eq
  have hlen5 : ((padTop (List.insertionSort keyLe m)).take 5).length = 5 := by
    rw [List.length_take, hmaxlen]
    exact Nat.min_eq_left (Nat.le_max_right _ _)
  have hbig : 5 ≤ m.length →
      (padTop (List.insertionSort keyLe m)).take 5 =
        (List.insertionSort keyLe m).take 5 := by
    intro hn
    rw [hpad, hge5 (by rw [hslen]; exact hn), List.append_nil]
  have hsmall : m.length < 5 →
      (padTop (List.insertionSort keyLe m)).take 5 =
        List.insertionSort keyLe m ++ suffix := by
    intro hn
    have hpadlen : (padTop (List.insertionSort keyLe m)).length = 5 := by
      rw [hmaxlen, Nat.max_eq_right (by rw [hslen]; omega)]
    have h5 : (List.insertionSort keyLe m ++ suffix).length ≤ 5 := by
      rw [← hpad]
      exact le_of_eq hpadlen
    rw [hpad]
    exact List.take_of_length_le h5
  refine ⟨_, rfl, hlen5, ?_, ?_, ?_, ?_⟩
  · by_cases hn : 5 ≤ m.length
    · rw [Nat.min_eq_right hn, hbig hn, List.take_take]
      exact hsort.sublist (List.take_sublist _ _)
    · rw [Nat.min_eq_left (by omega), hsmall (by omega), List.take_left' hslen]
      exact hsort
  · by_cases hn : 5 ≤ m.length
    · rw [Nat.min_eq_right hn, List.drop_eq_nil_of_le (le_of_eq hlen5)]
      intro x hx
      exact absurd hx (List.not_mem_nil x)
    · rw [Nat.min_eq_left (by omega), hsmall (by omega), List.drop_left' hslen]
      exact hzero
  · intro hn
    by_cases hn5 : 5 ≤ m.length
    · have hm5 : m.length = 5 := le_antisymm hn hn5
      have hS5 : (List.insertionSort keyLe m).length ≤ 5 := by rw [hslen, hm5]
      rw [Nat.min_eq_right hn5, hbig hn5, List.take_take, Nat.min_self,
        List.take_of_length_le hS5]
      exact hperm
    · rw [Nat.min_eq_left (by omega), hsmall (by omega), List.take_left' hslen]
      exact hperm
  · intro hn
    rw [Nat.min_eq_right hn, List.drop_eq_nil_of_le (le_of_eq hlen5)]

/-- C4: on every well-formed scoreboard, top(5) succeeds without touching
storage and returns exactly 5 entries: first the real players, sorted
ascending by display score (with the inf sentinel shown as 9999), then
placeholder entries of score 0, which appear exactly when fewer than 5 real
players exist; and on the scoreboard bob at 0.300, carol at 0.210 it returns
carol, then bob, then three placeholders of score 0. -/
theorem claim_C4_top5 (fs : FS) (h : fs.wf = true) :
    (∃ l1, get_top5 fs = .ok (l1, fs) ∧ l1.length = 5 ∧
      List.Sorted keyLe (l1.take (min (playersOf (dbOf fs)).length 5)) ∧
      (∀ x ∈ l1.drop (min (playersOf (dbOf fs)).length 5), x.2 = 0) ∧
      ((playersOf (dbOf fs)).length ≤ 5 →
        (l1.take (min (playersOf (dbOf fs)).length 5)).Perm
          ((playersOf (dbOf fs)).map (fun kv => (kv.1, dispQ kv.2)))) ∧
      (5 ≤ (playersOf (dbOf fs)).length →
        l1.drop (min (playersOf (dbOf fs)).length 5) = [])) ∧
    get_top5 storeTop = .ok ([("carol", mkRat 21 100), ("bob", mkRat 3 10),
      ("user3", 0), ("user4", 0), ("user5", 0)], storeTop) := by
  constructor
  · obtain ⟨l, p, hf, hl, hall⟩ := wf_destruct fs h
    have hload := load_scores_of_wf fs h
    have hp : playersOf (dbOf fs) = p := by
      rw [show dbOf fs = .obj l by simp [dbOf, hf]]
      exact playersOf_eq l p hl
    simp only [hp]
    have hres : get_top5 fs = .ok ((padTop (List.insertionSort keyLe
        (p.map fun kv => (kv.1, dispQ kv.2)))).take 5, fs) := by
      simp only [get_top5, hload, hp, normalizeP_ok p hall]
    obtain ⟨l1, hl1, hlen, hsorted, hdrop, hperm, hwhen⟩ :=
      top5_core (p.map fun kv => (kv.1, dispQ kv.2))
    rw [hl1] at hres
    have hmlen : (p.map fun kv => (kv.1, dispQ kv.2)).length = p.length :=
      List.length_map _ _
    rw [hmlen] at hsorted hdrop hperm hwhen
    exact ⟨l1, hres, hlen, hsorted, hdrop, hperm, hwhen⟩
  · rfl

/-- C4 witness: the theorem instantiated on the bob and carol scoreboard. -/
theorem claim_C4_witness :
    (∃ l1, get_top5 storeTop = .ok (l1, storeTop) ∧ l1.length = 5 ∧
      List.Sorted keyLe (l1.take (min (playersOf (dbOf storeTop)).length 5)) ∧
      (∀ x ∈ l1.drop (min (playersOf (dbOf storeTop)).length 5), x.2 = 0) ∧
      ((playersOf (dbOf storeTop)).length ≤ 5 →
        (l1.take (min (playersOf (dbOf storeTop)).length 5)).Perm
          ((playersOf (dbOf storeTop)).map (fun kv => (kv.1, dispQ kv.2)))) ∧
      (5 ≤ (playersOf (dbOf storeTop)).length →
        l1.drop (min (playersOf (dbOf storeTop)).length 5) = [])) ∧
    get_top5 storeTop = .ok ([("carol", mkRat 21 100), ("bob", mkRat 3 10),
      ("user3", 0), ("user4", 0), ("user5", 0)], storeTop) :=
  claim_C4_top5 storeTop rfl
